import Mathlib

/-!
Verification development for the invoice/estimate field-extraction engine of
`backend/services/pdf_parser.py`.  The Python source is shallowly embedded:
strings are `String`/`List Char`, Python `float` values arising from parsed
text are `ℚ` (exact), Python `int` is `ℤ`, and the upstream PDF decode
collaborator is modelled as an `Except String (List String)` input (either the
ordered page texts or the decode error message).  Regular expressions are
embedded by a small backtracking matcher (`mtch`) over a regex syntax `Re`
mirroring Python `re` semantics (leftmost match, greedy/lazy priority,
one-character classes, word boundary, `$`); every concrete pattern of the
source is transcribed as a `Re` value.  Character-level functions
(`pyLower`, whitespace, `\w`) are modelled on the ASCII + Latin-1 range that
the source's keyword tables and patterns use.
-/

namespace PdfParser

/-- Python whitespace characters (ASCII range), as used by `str.strip`,
`str.split` and the regex class `\s`. -/
def wsChars : List Char := [' ', '\t', '\n', '\r', Char.ofNat 11, Char.ofNat 12]

def isWs (c : Char) : Bool := wsChars.contains c

/-- Python `str.lower` restricted to ASCII + Latin-1 (A-Z and À-Þ except ×),
which covers every character the source's keyword tables and inputs use. -/
def pyLower (c : Char) : Char :=
  if 'A' ≤ c ∧ c ≤ 'Z' then Char.ofNat (c.toNat + 32)
  else if 0xC0 ≤ c.toNat ∧ c.toNat ≤ 0xDE ∧ c.toNat ≠ 0xD7 then Char.ofNat (c.toNat + 32)
  else c

/-- Python `str.upper` restricted to ASCII + Latin-1 (a-z and à-þ except ÷). -/
def pyUpper (c : Char) : Char :=
  if 'a' ≤ c ∧ c ≤ 'z' then Char.ofNat (c.toNat - 32)
  else if 0xE0 ≤ c.toNat ∧ c.toNat ≤ 0xFE ∧ c.toNat ≠ 0xF7 then Char.ofNat (c.toNat - 32)
  else c

/-- The regex class `[A-Za-zÀ-ÿ]` used by the source for "starts with a letter". -/
def letterc (c : Char) : Bool :=
  ('A' ≤ c && c ≤ 'Z') || ('a' ≤ c && c ≤ 'z') || (0xC0 ≤ c.toNat && c.toNat ≤ 0xFF)

/-- Python regex `\w` (word character) on the ASCII + Latin-1 range. -/
def wordc (c : Char) : Bool :=
  c.isAlphanum || c == '_' ||
    (0xC0 ≤ c.toNat && c.toNat ≤ 0xFF && c.toNat ≠ 0xD7 && c.toNat ≠ 0xF7)

def pyStripL (l : List Char) : List Char :=
  ((l.dropWhile isWs).reverse.dropWhile isWs).reverse

def pyStripS (s : String) : String := ⟨pyStripL s.data⟩

def pyLowerS (s : String) : String := ⟨s.data.map pyLower⟩

def pyUpperS (s : String) : String := ⟨s.data.map pyUpper⟩

/-- Python `str.split('\n')`. -/
def splitNl : List Char → List (List Char)
  | [] => [[]]
  | c :: rest =>
    if c = '\n' then [] :: splitNl rest
    else
      match splitNl rest with
      | h :: t => (c :: h) :: t
      | [] => [[c]]

/-- Python `prefix in s` / `str.startswith`. -/
def pyStarts (pre : String) (s : String) : Bool := pre.data.isPrefixOf s.data

def natOfDigits (l : List Char) : Nat :=
  l.foldl (fun n c => n * 10 + (c.toNat - 48)) 0

/-- Core of Python `float(s)` on an already-stripped unsigned string: digits
with at most one dot (forms `123`, `123.`, `.5`, `12.5`); anything else
(including interior whitespace left by the caller's `.replace(' ', '')`)
raises `ValueError`, modelled as `none`.  Exponents / `inf` / `nan` /
underscore separators cannot occur at the call sites (the captured classes
contain only digits, separators and whitespace). -/
def pyFloatCore (t : List Char) : Option ℚ :=
  if t ≠ [] ∧ t.all (fun c => c.isDigit || c == '.') ∧ t.count '.' ≤ 1 ∧ t.any Char.isDigit then
    let ip := t.takeWhile (fun c => c ≠ '.')
    let fp := (t.dropWhile (fun c => c ≠ '.')).drop 1
    some ((natOfDigits ip : ℚ) + (natOfDigits fp : ℚ) / (10 ^ fp.length : ℚ))
  else none

/-- Python `float(s)`: strip whitespace, optional sign, unsigned core. -/
def pyFloat (s : List Char) : Option ℚ :=
  match pyStripL s with
  | [] => pyFloatCore []
  | c :: rest =>
    if c = '-' then (pyFloatCore rest).map (fun q => -q)
    else if c = '+' then pyFloatCore rest
    else pyFloatCore (c :: rest)

def pyIntCore (t : List Char) : Option ℕ :=
  if t ≠ [] ∧ t.all Char.isDigit then some (natOfDigits t) else none

/-- Python `int(s)` on a decimal string. -/
def pyInt (s : List Char) : Option ℤ :=
  match pyStripL s with
  | [] => none
  | c :: rest =>
    if c = '-' then (pyIntCore rest).map (fun n => -(n : ℤ))
    else if c = '+' then (pyIntCore rest).map (fun n => (n : ℤ))
    else (pyIntCore (c :: rest)).map (fun n => (n : ℤ))

/-- Python `str.count(needle)` for a non-empty needle: non-overlapping
occurrences, scanning left to right.  The fuel argument bounds the scan by the
haystack length (one character is consumed per step). -/
def countSubAux (needle : List Char) : Nat → List Char → Nat
  | 0, _ => 0
  | _ + 1, [] => 0
  | fuel + 1, c :: rest =>
    if needle.isPrefixOf (c :: rest) then
      1 + countSubAux needle fuel ((c :: rest).drop needle.length)
    else countSubAux needle fuel rest

def countSub (needle hay : List Char) : Nat :=
  if needle.isEmpty then hay.length + 1 else countSubAux needle hay.length hay

/-- Python `needle in hay` (substring containment). -/
def containsSub (needle hay : List Char) : Bool :=
  (List.range (hay.length + 1)).any (fun i => needle.isPrefixOf (hay.drop i))

/-- Python `.replace(',', '.')`. -/
def replCommaDot (l : List Char) : List Char := l.map (fun c => if c == ',' then '.' else c)

/-- Python `.replace(' ', '')`. -/
def remSpace (l : List Char) : List Char := l.filter (fun c => c ≠ ' ')

/-! ### Regex syntax and backtracking matcher (Python `re` semantics) -/

/-- Regex syntax.  `cls` is a one-character class; `star`/`lazystar` are the
greedy/lazy Kleene repetitions; `group` records a capture span; `bnd` is the
word boundary `\b`; `dollar` is `$` (end of string, or just before a final
newline, as in Python without `re.MULTILINE`). -/
inductive Re where
  | eps
  | cls (f : Char → Bool)
  | seq (a b : Re)
  | alt (a b : Re)
  | star (a : Re)
  | lazystar (a : Re)
  | group (i : Nat) (a : Re)
  | bnd
  | dollar
deriving Inhabited

def Re.size : Re → Nat
  | .eps => 1
  | .cls _ => 1
  | .seq a b => a.size + b.size + 1
  | .alt a b => a.size + b.size + 1
  | .star a => a.size + 1
  | .lazystar a => a.size + 1
  | .group _ a => a.size + 1
  | .bnd => 1
  | .dollar => 1

/-- Recorded capture spans: (group index, start position, end position). -/
abbrev Caps := List (Nat × Nat × Nat)

def wordAt (text : List Char) (p : Nat) : Bool :=
  match text[p]? with
  | some c => wordc c
  | none => false

/-- Backtracking matcher in continuation-passing style: tries alternatives in
Python's priority order (left alternative first, greedy repetition longest
first, lazy repetition shortest first) and returns the first success, so the
overall result is exactly Python's leftmost, priority-ordered match.  The fuel
bounds the recursion depth; every caller supplies fuel exceeding the maximal
depth `(text length + 2) * (pattern size + 2)`, so the fuel never runs out. -/
def mtch (text : List Char) : Nat → Re → Nat → Caps →
    (Nat → Caps → Option (Caps × Nat)) → Option (Caps × Nat)
  | 0, _, _, _, _ => none
  | fuel + 1, re, p, caps, k =>
    match re with
    | .eps => k p caps
    | .cls f =>
      match text[p]? with
      | some c => if f c then k (p + 1) caps else none
      | none => none
    | .seq a b => mtch text fuel a p caps (fun p' caps' => mtch text fuel b p' caps' k)
    | .alt a b =>
      match mtch text fuel a p caps k with
      | some r => some r
      | none => mtch text fuel b p caps k
    | .star a =>
      match mtch text fuel a p caps
          (fun p' caps' => if p < p' then mtch text fuel (.star a) p' caps' k else none) with
      | some r => some r
      | none => k p caps
    | .lazystar a =>
      match k p caps with
      | some r => some r
      | none =>
        mtch text fuel a p caps
          (fun p' caps' => if p < p' then mtch text fuel (.lazystar a) p' caps' k else none)
    | .group i a => mtch text fuel a p caps (fun p' caps' => k p' ((i, p, p') :: caps'))
    | .bnd =>
      if (decide (0 < p) && wordAt text (p - 1)) != wordAt text p then k p caps else none
    | .dollar =>
      if p = text.length ∨ (p + 1 = text.length ∧ text[p]? = some '\n') then k p caps
      else none

def mtchFuel (text : List Char) (r : Re) : Nat := (text.length + 2) * (r.size + 2)

/-- Python `re.match`: anchored at position 0; returns (captures, match end). -/
def rmatch (r : Re) (text : List Char) : Option (Caps × Nat) :=
  mtch text (mtchFuel text r) r 0 [] (fun p caps => some (caps, p))

def rmatchB (r : Re) (s : String) : Bool := (rmatch r s.data).isSome

/-- Python `re.search`: leftmost match; returns (captures, start, end). -/
def research (r : Re) (text : List Char) : Option (Caps × Nat × Nat) :=
  (List.range (text.length + 1)).findSome? (fun s =>
    match mtch text (mtchFuel text r) r s [] (fun p caps => some (caps, p)) with
    | some (caps, e) => some (caps, s, e)
    | none => none)

/-- Python `match.group(i)` as a span. -/
def capGet (i : Nat) (caps : Caps) : Option (Nat × Nat) :=
  (caps.find? (fun t => t.1 == i)).map (fun t => t.2)

/-- Python `match.group(i)` as the captured characters. -/
def capStr (i : Nat) (caps : Caps) (text : List Char) : Option (List Char) :=
  (capGet i caps).map (fun se => (text.drop se.1).take (se.2 - se.1))

/-! ### Regex construction helpers for transcribing the source's patterns -/

/-- Literal character. -/
def rchr (c : Char) : Re := .cls (fun x => x == c)

/-- Case-insensitive literal character (`re.IGNORECASE`), target lowercase. -/
def rci (c : Char) : Re := .cls (fun x => pyLower x == c)

def rstrL : List Char → Re
  | [] => .eps
  | c :: cs => .seq (rchr c) (rstrL cs)

/-- Literal string. -/
def rstr (s : String) : Re := rstrL s.data

def rcistrL : List Char → Re
  | [] => .eps
  | c :: cs => .seq (rci c) (rcistrL cs)

/-- Case-insensitive literal string. -/
def rcistr (s : String) : Re := rcistrL s.data

def rseq : List Re → Re
  | [] => .eps
  | [r] => r
  | r :: rest => .seq r (rseq rest)

def ralt : List Re → Re
  | [] => .cls (fun _ => false)
  | [r] => r
  | r :: rest => .alt r (ralt rest)

/-- Greedy `r?`. -/
def ropt (r : Re) : Re := .alt r .eps

/-- Greedy `r+`. -/
def rplus (r : Re) : Re := .seq r (.star r)

/-- Lazy `r+?`. -/
def rlazyplus (r : Re) : Re := .seq r (.lazystar r)

/-- The class `\s`. -/
def rws : Re := .cls isWs

/-- The class `\d`. -/
def rdig : Re := .cls Char.isDigit

/-- Greedy `\s{2,}`. -/
def rws2 : Re := rseq [rws, rws, .star rws]

/-! ### The concrete patterns of `pdf_parser.py`, transcribed -/

def clsColonNl : Re := .cls (fun c => c == ':' || c == '\n')

def clsColonWs : Re := .cls (fun c => c == ':' || isWs c)

def clsCur : Re := .cls (fun c => c == '€' || c == '$')

def clsDotComma : Re := .cls (fun c => c == '.' || c == ',')

/-- The class `[\d.,]`. -/
def numc (c : Char) : Bool := c.isDigit || c == '.' || c == ','

/-- The class `[\d\s.,]`. -/
def numSpc (c : Char) : Bool := c.isDigit || isWs c || c == '.' || c == ','

/-- The class `[\w\s\-\(\)\'\"\.,:]` of the inline item patterns. -/
def descc (c : Char) : Bool :=
  wordc c || isWs c || c == '-' || c == '(' || c == ')' ||
    c == Char.ofNat 39 || c == Char.ofNat 34 || c == '.' || c == ',' || c == ':'

/-- The class `[A-Z0-9\-_]` under `re.IGNORECASE`. -/
def titlec (c : Char) : Bool :=
  ('A' ≤ pyUpper c && pyUpper c ≤ 'Z') || c.isDigit || c == '-' || c == '_'

/-- `(?:from|de|émetteur|expéditeur)\s*[:\n]` (searched over the lowercased text). -/
def fromMarker1 : Re :=
  rseq [ralt [rstr "from", rstr "de", rstr "émetteur", rstr "expéditeur"], .star rws, clsColonNl]

/-- `(?:vendeur|seller)\s*[:\n]`. -/
def fromMarker2 : Re := rseq [ralt [rstr "vendeur", rstr "seller"], .star rws, clsColonNl]

/-- `(?:to|à|destinataire|client|bill\s*to|facturer\s*à|customer)\s*[:\n]`. -/
def toMarker1 : Re :=
  rseq [ralt [rstr "to", rstr "à", rstr "destinataire", rstr "client",
              rseq [rstr "bill", .star rws, rstr "to"],
              rseq [rstr "facturer", .star rws, rstr "à"], rstr "customer"],
        .star rws, clsColonNl]

/-- `(?:acheteur|buyer)\s*[:\n]`. -/
def toMarker2 : Re := rseq [ralt [rstr "acheteur", rstr "buyer"], .star rws, clsColonNl]

/-- `^(from|to|de|à|client|total|montant|date|invoice|facture)` (address block stop). -/
def sectionStartRe : Re :=
  .group 1 (ralt [rstr "from", rstr "to", rstr "de", rstr "à", rstr "client",
                  rstr "total", rstr "montant", rstr "date", rstr "invoice", rstr "facture"])

/-- `\b\d{5}(?:-\d{4})?\b` (postal code). -/
def postalRe : Re :=
  rseq [.bnd, rdig, rdig, rdig, rdig, rdig,
        ropt (rseq [rchr '-', rdig, rdig, rdig, rdig]), .bnd]

/-- `^(total|montant|date|invoice|facture|devis|\d+[.,]\d+\s*€?$)` (block line filter). -/
def blockSkipRe : Re :=
  .group 1 (ralt [rstr "total", rstr "montant", rstr "date", rstr "invoice",
                  rstr "facture", rstr "devis",
                  rseq [rplus rdig, clsDotComma, rplus rdig, .star rws, ropt (rchr '€'), .dollar]])

/-- `^([\d.,]+)$` (pure numeric table cell, with capture). -/
def tableNumRe : Re := rseq [.group 1 (rplus (.cls numc)), .dollar]

/-- `^[\d.,]+$` (pure numeric table cell, boolean use). -/
def allNumRe : Re := rseq [rplus (.cls numc), .dollar]

def reWordB (s : String) : Re := rseq [rstr s, .bnd]

def clsDateSep3 : Re := .cls (fun c => c == '/' || c == '-' || c == '.')

def clsDateSep2 : Re := .cls (fun c => c == '/' || c == '-')

def clsDegO : Re := .cls (fun c => c == '°' || c == 'o')

/-- The inline strategy's metadata skip patterns, in source order. -/
def skip_patterns : List Re :=
  [reWordB "devis", reWordB "facture", reWordB "invoice", reWordB "estimate",
   reWordB "date",
   rseq [rchr 'n', clsDegO, ropt (rchr '.'), .star rws, ropt (rchr ':'), .star rws, rdig],
   rstr "ref",
   reWordB "client", reWordB "total", reWordB "montant",
   rstr "sous-total", rstr "subtotal",
   reWordB "tva", reWordB "tax",
   rseq [rdig, ropt rdig, clsDateSep3, rdig, ropt rdig, clsDateSep3,
         rdig, rdig, ropt rdig, ropt rdig],
   rseq [rstr "page", rplus rws, rdig],
   reWordB "siret", reWordB "iban", reWordB "bic"]

/-- `^([A-Za-zÀ-ÿ][\w\s\-\(\)\'\"\.,:]+?)\s{2,}(\d+)\s+[\$€]?\s*([\d\s.,]+)`. -/
def inlineP1 : Re :=
  rseq [.group 1 (rseq [.cls letterc, rlazyplus (.cls descc)]),
        rws2,
        .group 2 (rplus rdig),
        rplus rws,
        ropt clsCur,
        .star rws,
        .group 3 (rplus (.cls numSpc))]

/-- `^([A-Za-zÀ-ÿ][\w\s\-\(\)\'\"\.,:]{5,}?)\s{2,}[\$€]?\s*([\d.,]+)\s*€?$`. -/
def inlineP2 : Re :=
  rseq [.group 1 (rseq [.cls letterc, .cls descc, .cls descc, .cls descc, .cls descc,
                        .cls descc, .lazystar (.cls descc)]),
        rws2,
        ropt clsCur,
        .star rws,
        .group 2 (rplus (.cls numc)),
        .star rws,
        ropt (rchr '€'),
        .dollar]

/-- `_is_metadata`'s prefix patterns, in source order. -/
def metadata_patterns : List Re :=
  [rseq [rstr "devis", rws], rseq [rstr "facture", rws],
   rseq [rstr "invoice", rws], rseq [rstr "estimate", rws],
   rseq [rchr 'n', clsDegO, ropt (rchr '.'), rws],
   rstr "ref",
   rseq [rstr "date", rws], rseq [rstr "client", rws],
   rstr "numéro", rstr "number",
   rseq [rdig, ropt rdig, clsDateSep2, rdig, ropt rdig, clsDateSep2,
         rdig, rdig, ropt rdig, ropt rdig],
   rstr "valide", rstr "valid",
   rstr "émis", rstr "issued"]

/-- The group `([\d\s.,]+)` of every total pattern. -/
def grpAmt : Re := .group 1 (rplus (.cls numSpc))

/-- `total\s*:\s*\n?\s*[€$]?\s*([\d\s.,]+)` (IGNORECASE). -/
def tp1 : Re :=
  rseq [rcistr "total", .star rws, rchr ':', .star rws, ropt (rchr '\n'), .star rws,
        ropt clsCur, .star rws, grpAmt]

/-- `total\s*(?:ttc|ht)?\s*[:\s]*[\$€]?\s*([\d\s.,]+)`. -/
def tp2 : Re :=
  rseq [rcistr "total", .star rws, ropt (ralt [rcistr "ttc", rcistr "ht"]), .star rws,
        .star clsColonWs, ropt clsCur, .star rws, grpAmt]

/-- `montant\s*(?:total|ttc|ht)?\s*[:\s]*[\$€]?\s*([\d\s.,]+)`. -/
def tp3 : Re :=
  rseq [rcistr "montant", .star rws, ropt (ralt [rcistr "total", rcistr "ttc", rcistr "ht"]),
        .star rws, .star clsColonWs, ropt clsCur, .star rws, grpAmt]

/-- `amount\s*(?:due)?\s*[:\s]*[\$€]?\s*([\d\s.,]+)`. -/
def tp4 : Re :=
  rseq [rcistr "amount", .star rws, ropt (rcistr "due"), .star rws,
        .star clsColonWs, ropt clsCur, .star rws, grpAmt]

/-- `grand\s*total\s*[:\s]*[\$€]?\s*([\d\s.,]+)`. -/
def tp5 : Re :=
  rseq [rcistr "grand", .star rws, rcistr "total", .star rws,
        .star clsColonWs, ropt clsCur, .star rws, grpAmt]

/-- `total\s*:\s*\n?\s*€([\d\s.,]+)`. -/
def tp6 : Re :=
  rseq [rcistr "total", .star rws, rchr ':', .star rws, ropt (rchr '\n'), .star rws,
        rchr '€', grpAmt]

/-- `€([\d\s.,]+)\s*$` (euro amount at end). -/
def tp7 : Re := rseq [rchr '€', grpAmt, .star rws, .dollar]

/-- The ordered total patterns of `_calculate_total`. -/
def total_patterns : List Re := [tp1, tp2, tp3, tp4, tp5, tp6, tp7]

/-- The group `([A-Z0-9\-_]+)` of every title pattern. -/
def grpRef : Re := .group 1 (rplus (.cls titlec))

def clsDegOCi : Re := .cls (fun c => pyLower c == '°' || pyLower c == 'o')

/-- `(?:facture|invoice|devis|estimate)\s*(?:n[°o]?\.?|#|number)?\s*[:\s]*([A-Z0-9\-_]+)`. -/
def ttl1 : Re :=
  rseq [ralt [rcistr "facture", rcistr "invoice", rcistr "devis", rcistr "estimate"],
        .star rws,
        ropt (ralt [rseq [rci 'n', ropt clsDegOCi, ropt (rchr '.')], rchr '#', rcistr "number"]),
        .star rws, .star clsColonWs, grpRef]

/-- `(?:réf(?:érence)?|ref(?:erence)?)\s*[:\s]*([A-Z0-9\-_]+)`. -/
def ttl2 : Re :=
  rseq [ralt [rseq [rcistr "réf", ropt (rcistr "érence")],
              rseq [rcistr "ref", ropt (rcistr "erence")]],
        .star rws, .star clsColonWs, grpRef]

/-- `(?:n[°o]\.?)\s*([A-Z0-9\-_]+)`. -/
def ttl3 : Re := rseq [rci 'n', clsDegOCi, ropt (rchr '.'), .star rws, grpRef]

def title_patterns : List Re := [ttl1, ttl2, ttl3]

/-! ### Data model -/

/-- One extracted line item: `{description, quantity, price}`. -/
structure LineItem where
  description : String
  quantity : ℤ
  price : ℚ
deriving DecidableEq, Inhabited

/-- The dictionary returned by `extract_invoice_data`. -/
structure ExtractionResult where
  mode : String
  language : String
  from_address : String
  to_address : String
  items : List LineItem
  total : ℚ
  doc_title : String
  raw_text : String
deriving DecidableEq, Inhabited

/-! ### `_detect_mode` and `_detect_language` -/

def estimate_keywords : List String := ["devis", "estimate", "quotation", "quote", "proforma"]

def invoice_keywords : List String := ["facture", "invoice", "bill", "receipt"]

def french_keywords : List String :=
  ["facture", "devis", "montant", "total", "prix", "quantité",
   "adresse", "client", "référence", "émetteur", "destinataire",
   "rue", "avenue", "boulevard", "france", "paris", "lyon"]

def english_keywords : List String :=
  ["invoice", "estimate", "amount", "price", "quantity",
   "address", "customer", "reference", "from", "bill to",
   "street", "road", "avenue"]

/-- `sum(text_lower.count(kw) for kw in kws)`. -/
def kwCount (text_lower : String) (kws : List String) : Nat :=
  (kws.map (fun kw => countSub kw.data text_lower.data)).sum

def detect_mode (text_lower : String) : String :=
  if kwCount text_lower invoice_keywords < kwCount text_lower estimate_keywords then "estimate"
  else "invoice"

def detect_language (text_lower : String) : String :=
  if kwCount text_lower english_keywords ≤ kwCount text_lower french_keywords then "fr"
  else "en"

/-! ### `_extract_addresses` -/

/-- The line-collecting loop of `_extract_address_block`: stop at the first
empty line following collected content and at section-marker lines. -/
def addr_collect : List String → List String → List String
  | [], acc => acc
  | l :: rest, acc =>
    let ls := pyStripS l
    if ls = "" then (if acc ≠ [] then acc else addr_collect rest acc)
    else if rmatchB sectionStartRe (pyLowerS ls) then acc
    else addr_collect rest (acc ++ [ls])

def extract_address_block (text : String) (start_idx : Nat) : String :=
  let remaining := (text.data.drop start_idx).take 500
  let ls := ((splitNl remaining).map (fun l => (⟨l⟩ : String))).take 5
  String.intercalate "\n" (addr_collect ls [])

/-- Strategy A marker loop: first pattern whose match yields an address block
longer than 10 characters wins. -/
def try_markers : List Re → String → String → String
  | [], _, _ => ""
  | p :: rest, tl, ft =>
    match research p tl.data with
    | some (_, _, e) =>
      let addr := extract_address_block ft e
      if addr ≠ "" ∧ 10 < addr.length then addr else try_markers rest tl ft
    | none => try_markers rest tl ft

/-- The candidate block around a postal-code line: surviving stripped lines of
indices `[start, e]` (clipped), excluding totals/date/metadata-looking lines. -/
def block_window (lines : List String) (start e : Nat) : List String :=
  ((List.range (e + 1 - start)).map (fun o => start + o)).filterMap (fun j =>
    if j < lines.length then
      let l := pyStripS (lines.getD j "")
      if l ≠ "" ∧ rmatchB blockSkipRe (pyLowerS l) = false then some l else none
    else none)

def find_address_blocks_aux (lines : List String) : Nat → Nat → List String → List String
  | 0, _, acc => acc
  | fuel + 1, i, acc =>
    if i < lines.length then
      if (research postalRe (lines.getD i "").data).isSome then
        let start := i - 2
        let e := min lines.length (i + 1)
        let bl := block_window lines start e
        let acc' := if bl ≠ [] then acc ++ [String.intercalate "\n" bl] else acc
        find_address_blocks_aux lines fuel (e + 1) acc'
      else find_address_blocks_aux lines fuel (i + 1) acc
    else acc

def find_address_blocks (lines : List String) : List String :=
  find_address_blocks_aux lines (lines.length + 1) 0 []

/-- Strategy B (postal-code fallback) assignment of found blocks to the two
sides, never overwriting a side already filled by Strategy A. -/
def apply_strategy_b (from_address to_address : String) (blocks : List String) : String × String :=
  if 2 ≤ blocks.length then
    ((if from_address = "" then (blocks.get? 0).getD "" else from_address),
     (if to_address = "" then (if 1 < blocks.length then (blocks.get? 1).getD "" else "")
      else to_address))
  else if blocks.length = 1 then
    (from_address, (if to_address = "" then (blocks.get? 0).getD "" else to_address))
  else (from_address, to_address)

def extract_addresses (lines : List String) (full_text : String) : String × String :=
  let text_lower := pyLowerS full_text
  let from1 := try_markers [fromMarker1, fromMarker2] text_lower full_text
  let to1 := try_markers [toMarker1, toMarker2] text_lower full_text
  let r := if from1 = "" ∨ to1 = "" then apply_strategy_b from1 to1 (find_address_blocks lines)
           else (from1, to1)
  (pyStripS r.1, pyStripS r.2)

/-! ### `_is_metadata` -/

def is_metadata (text : String) : Bool :=
  let tl := pyStripS (pyLowerS text)
  metadata_patterns.any (fun p => rmatchB p tl) ||
    (decide (text.length < 15) && (match text.data with | c :: _ => c.isDigit | [] => false))

/-! ### `_extract_table_items` -/

def header_tokens : List String := ["description", "désignation", "libellé"]

def header_idx (lines : List String) : Option Nat :=
  (List.range lines.length).find? (fun i =>
    let ll := pyStripS (pyLowerS (lines.getD i ""))
    header_tokens.any (fun h => containsSub h.data ll.data))

def header_cells : List String :=
  ["quantité", "quantity", "qty", "qté",
   "prix unitaire", "unit price", "prix unitaire (€)", "prix",
   "total", "total (€)", "montant"]

def skip_cells (lines : List String) : Nat → Nat → Nat
  | 0, i => i
  | fuel + 1, i =>
    if i < lines.length then
      if header_cells.contains (pyStripS (pyLowerS (lines.getD i ""))) then
        skip_cells lines fuel (i + 1)
      else i
    else i

def startsLetter (s : String) : Bool :=
  match s.data with
  | c :: _ => letterc c
  | [] => false

/-- Parse one pure-numeric table cell: `float(group(1).replace(',', '.'))`,
`ValueError` giving `none`. -/
def parse_num (s : String) : Option ℚ :=
  match rmatch tableNumRe s.data with
  | some (caps, _) => (capStr 1 caps s.data).bind (fun g => pyFloat (replCommaDot g))
  | none => none

/-- The numeric lookahead of the table strategy: collect up to 3 pure-numeric
tokens from subsequent lines, stopping at a letter-initial non-numeric line or
a line starting with "total"; returns the numbers and the final cursor. -/
def collect_numbers (lines : List String) : Nat → Nat → List ℚ → List ℚ × Nat
  | 0, j, acc => (acc, j)
  | fuel + 1, j, acc =>
    if j < lines.length ∧ acc.length < 3 then
      let next := pyStripS (lines.getD j "")
      if startsLetter next ∧ rmatchB allNumRe next = false then (acc, j)
      else if pyStarts "total" (pyLowerS next) then (acc, j)
      else
        match parse_num next with
        | some q => collect_numbers lines fuel (j + 1) (acc ++ [q])
        | none => collect_numbers lines fuel (j + 1) acc
    else (acc, j)

/-- The main scan loop of `_extract_table_items` over the data rows. -/
def table_scan (lines : List String) : Nat → Nat → List LineItem → List LineItem
  | 0, _, items => items
  | fuel + 1, i, items =>
    if i < lines.length then
      let line := pyStripS (lines.getD i "")
      if pyStarts "total:" (pyLowerS line) ∨ pyLowerS line = "total" then items
      else if line = "" then table_scan lines fuel (i + 1) items
      else if startsLetter line ∧ is_metadata line = false then
        let r := collect_numbers lines (lines.length + 1) (i + 1) []
        if 2 ≤ r.1.length then
          let q0 := (r.1.get? 0).getD 0
          let qty : ℤ := if q0.den = 1 then q0.num else 1
          let price := (r.1.get? 1).getD 0
          let items' :=
            if line ≠ "" ∧ 0 < qty ∧ 0 ≤ price then items ++ [⟨line, qty, price⟩] else items
          table_scan lines fuel r.2 items'
        else table_scan lines fuel (i + 1) items
      else table_scan lines fuel (i + 1) items
    else items

def extract_table_items (lines : List String) : List LineItem :=
  match header_idx lines with
  | none => []
  | some h => table_scan lines (lines.length + 1) (skip_cells lines (lines.length + 1) (h + 1)) []

/-! ### `_extract_inline_items` -/

/-- The skip test at the head of the inline loop (metadata patterns on the
lowercased stripped line, or stripped length < 5). -/
def inline_skip (ls : String) : Bool :=
  skip_patterns.any (fun p => rmatchB p (pyLowerS ls)) || decide (ls.length < 5)

/-- Attempt of the quantity-bearing inline pattern on a stripped line; `some`
exactly when the source appends an item and `continue`s. -/
def try_pattern1 (ls : String) : Option LineItem :=
  match rmatch inlineP1 ls.data with
  | some (caps, _) =>
    match capStr 1 caps ls.data, capStr 2 caps ls.data, capStr 3 caps ls.data with
    | some g1, some g2, some g3 =>
      if is_metadata ⟨g1⟩ = false then
        let desc := pyStripS ⟨g1⟩
        match pyInt g2, pyFloat (replCommaDot (remSpace g3)) with
        | some qty, some price =>
          if 2 < desc.length ∧ 0 < qty then some ⟨desc, qty, price⟩ else none
        | _, _ => none
      else none
    | _, _, _ => none
  | none => none

/-- Attempt of the price-only inline pattern on a stripped line. -/
def try_pattern2 (ls : String) : Option LineItem :=
  match rmatch inlineP2 ls.data with
  | some (caps, _) =>
    match capStr 1 caps ls.data, capStr 2 caps ls.data with
    | some g1, some g2 =>
      if is_metadata ⟨g1⟩ = false then
        let desc := pyStripS ⟨g1⟩
        match pyFloat (replCommaDot g2) with
        | some price =>
          if 3 < desc.length ∧ 0 < price ∧ price < 1000000 then some ⟨desc, 1, price⟩ else none
        | none => none
      else none
    | _, _ => none
  | none => none

/-- One iteration of the inline loop: skip check, then pattern 1, then
pattern 2; each line yields at most one item. -/
def process_inline_line (line : String) : Option LineItem :=
  let ls := pyStripS line
  if inline_skip ls then none
  else
    match try_pattern1 ls with
    | some it => some it
    | none => try_pattern2 ls

def extract_inline_items (lines : List String) : List LineItem :=
  lines.foldl (fun acc l => acc ++ (process_inline_line l).toList) []

def extract_items (lines : List String) : List LineItem :=
  let t := extract_table_items lines
  if t ≠ [] then t else extract_inline_items lines

/-! ### `_calculate_total`, `_extract_title`, `extract_invoice_data` -/

/-- `float(match.group(1).replace(' ', '').replace(',', '.'))`, `ValueError`
giving `none`. -/
def parse_total_capture (caps : Caps) (t : List Char) : Option ℚ :=
  (capStr 1 caps t).bind (fun s => pyFloat (replCommaDot (remSpace s)))

/-- The pattern loop of `_calculate_total`: first pattern whose leftmost match
parses to a positive amount wins; otherwise 0. -/
def scan_total : List Re → String → ℚ
  | [], _ => 0
  | p :: rest, t =>
    match research p t.data with
    | some (caps, _, _) =>
      match parse_total_capture caps t.data with
      | some v => if 0 < v then v else scan_total rest t
      | none => scan_total rest t
    | none => scan_total rest t

def calculate_total (items : List LineItem) (full_text : String) : ℚ :=
  if items ≠ [] then (items.map (fun it => (it.quantity : ℚ) * it.price)).sum
  else scan_total total_patterns full_text

/-- The pattern loop of `_extract_title`: first match whose stripped group has
length ≥ 2 is returned upper-cased. -/
def title_scan : List Re → String → String
  | [], _ => ""
  | p :: rest, tl =>
    match research p tl.data with
    | some (caps, _, _) =>
      match capStr 1 caps tl.data with
      | some g =>
        let ref := pyStripS ⟨g⟩
        if 2 ≤ ref.length then pyUpperS ref else title_scan rest tl
      | none => title_scan rest tl
    | none => title_scan rest tl

def extract_title (_lines : List String) (text_lower : String) : String :=
  title_scan title_patterns text_lower

def empty_result (error_msg : String) : ExtractionResult :=
  { mode := "invoice", language := "fr", from_address := "", to_address := "",
    items := [], total := 0, doc_title := "", raw_text := error_msg }

/-- The page-joining loop: at most the first 10 pages, each page text followed
by a newline. -/
def joinPages (pages : List String) : String :=
  (pages.take 10).foldl (fun acc p => acc ++ p ++ "\n") ""

/-- `full_text.split('\n')`, each line stripped, empty lines dropped. -/
def normalized_lines (full_text : String) : List String :=
  (((splitNl full_text.data).map (fun l => (⟨l⟩ : String))).map pyStripS).filter (fun l => l ≠ "")

/-- `extract_invoice_data`, with the upstream PDF decode collaborator
modelled as an `Except`: `.error e` is the `fitz.open` exception path. -/
def extract_invoice_data (decoded : Except String (List String)) : ExtractionResult :=
  match decoded with
  | .error e => empty_result ("Error opening PDF: " ++ e)
  | .ok pages =>
    let full_text := joinPages pages
    let lines := normalized_lines full_text
    let text_lower := pyLowerS full_text
    let addrs := extract_addresses lines full_text
    let items := extract_items lines
    { mode := detect_mode text_lower
      language := detect_language text_lower
      from_address := addrs.1
      to_address := addrs.2
      items := items
      total := calculate_total items full_text
      doc_title := extract_title lines text_lower
      raw_text := full_text }

/-- Claim-side characterization of the total-pattern scan: the first pattern
whose leftmost match parses to a strictly positive amount. -/
def spec_first_positive (ps : List Re) (t : String) : Option ℚ :=
  ps.findSome? (fun p => (research p t.data).bind (fun r =>
    (parse_total_capture r.1 t.data).bind (fun v => if 0 < v then some v else none)))

/-- The union of the character classes occurring in a regex: every character
the regex can consume satisfies this predicate. -/
def inClsB : Re → Char → Bool
  | .eps, _ => false
  | .cls f, c => f c
  | .seq a b, c => inClsB a c || inClsB b c
  | .alt a b, c => inClsB a c || inClsB b c
  | .star a, c => inClsB a c
  | .lazystar a, c => inClsB a c
  | .group _ a, c => inClsB a c
  | .bnd, _ => false
  | .dollar, _ => false

/-- Every group `i` of the regex only consumes characters satisfying `A i`. -/
def GroupsBelow (A : Nat → Char → Prop) : Re → Prop
  | .seq a b => GroupsBelow A a ∧ GroupsBelow A b
  | .alt a b => GroupsBelow A a ∧ GroupsBelow A b
  | .star a => GroupsBelow A a
  | .lazystar a => GroupsBelow A a
  | .group i a => (∀ c, inClsB a c = true → A i c) ∧ GroupsBelow A a
  | _ => True

/-- Every recorded capture span `(g, s, e)` consists of characters
satisfying `A g`. -/
def SpanOK (A : Nat → Char → Prop) (text : List Char) (caps : Caps) : Prop :=
  ∀ g s e, (g, s, e) ∈ caps → ∀ j c, s ≤ j → j < e → text[j]? = some c → A g c

/-- Syntactic check that a regex can never match inside whitespace-only text:
its leftmost mandatory atom is a class rejecting every whitespace character,
or a word boundary (which needs a word character on one side). -/
def rejwsB : Re → Bool
  | .cls f => wsChars.all (fun c => f c == false)
  | .seq a _ => rejwsB a
  | .alt a b => rejwsB a && rejwsB b
  | .group _ a => rejwsB a
  | .bnd => true
  | _ => false

/-- The text consists only of whitespace characters. -/
def allWsS (s : String) : Bool := s.data.all isWs

/-- The string starts with a non-whitespace character (true for every keyword
of the classifier tables). -/
def headNonWs (s : String) : Bool :=
  match s.data with
  | c :: _ => !isWs c
  | [] => false

/-! ## Theorems -/

/-- C1 counterexample: on a decode failure the engine's default result carries
the primary locale "fr", not the secondary locale "en" that the claim
asserts. -/
theorem c1_decode_default_language_counterexample :
    (extract_invoice_data (.error "unreadable")).language = "fr" ∧ "fr" ≠ "en" := by
  exact ⟨rfl, by decide⟩

/-- C1 (amended): for every failing decode, the extraction function returns,
without raising, a default ExtractionResult with kind invoice, locale the
primary locale "fr", both addresses empty, items empty, total 0, title empty,
and rawText a diagnostic message embedding the decode error text. -/
theorem c1_decode_default :
    ∀ e, extract_invoice_data (.error e) =
      { mode := "invoice", language := "fr", from_address := "", to_address := "",
        items := [], total := 0, doc_title := "",
        raw_text := "Error opening PDF: " ++ e } :=
  fun _ => rfl

/-- C2: for every non-empty item list, `calculate_total` returns exactly the
sum of quantity × unitPrice over all items, with no rounding, regardless of
the full text. -/
theorem c2_total_sums_items :
    ∀ items full_text, items ≠ [] →
      calculate_total items full_text =
        (items.map (fun it => (it.quantity : ℚ) * it.price)).sum := by
  intro items full_text h
  simp [calculate_total, h]

theorem c2_total_sums_items_witness :
    calculate_total [⟨"dev", 2, 3⟩, ⟨"ops", 1, 5⟩] "Total:\n€110.00" = 11 := by
  rw [c2_total_sums_items [⟨"dev", 2, 3⟩, ⟨"ops", 1, 5⟩] "Total:\n€110.00" (by decide)]
  with_unfolding_all decide

/-- C4: the kind classifier returns "estimate" exactly when the total count of
estimate-keyword occurrences strictly exceeds the invoice-keyword count, and
"invoice" on equal or invoice-dominant counts; in particular a text with
"facture" three times and "devis" once classifies as "invoice". -/
theorem c4_kind_tie_break :
    ∀ t, (detect_mode t = "estimate" ↔
            kwCount t invoice_keywords < kwCount t estimate_keywords) ∧
         (detect_mode t = "invoice" ↔
            ¬ kwCount t invoice_keywords < kwCount t estimate_keywords) ∧
         detect_mode "facture facture facture devis" = "invoice" := by
  intro t
  refine ⟨?_, ?_, by decide⟩ <;> unfold detect_mode <;> split <;> simp_all

/-- C5: the locale classifier returns the primary locale "fr" whenever the
french keyword count is greater than or equal to the english keyword count
(primary wins ties), and the secondary locale "en" otherwise. -/
theorem c5_locale_tie_break :
    ∀ t, (detect_language t = "fr" ↔
            kwCount t english_keywords ≤ kwCount t french_keywords) ∧
         (detect_language t = "en" ↔
            kwCount t french_keywords < kwCount t english_keywords) := by
  intro t
  constructor <;> unfold detect_language <;> split <;> simp_all

/-- C7: Strategy B's assignment: with ≥2 candidate blocks, block 0 goes to the
"from" side and block 1 to the "to" side, each only when that side was not
already filled by Strategy A; with exactly 1 block, it fills "to" and only if
"to" is still unfilled. -/
theorem c7_strategy_b_assignment :
    ∀ fa ta lines,
      (2 ≤ (find_address_blocks lines).length →
        apply_strategy_b fa ta (find_address_blocks lines) =
          ((if fa = "" then ((find_address_blocks lines).get? 0).getD "" else fa),
           (if ta = "" then ((find_address_blocks lines).get? 1).getD "" else ta))) ∧
      ((find_address_blocks lines).length = 1 →
        apply_strategy_b fa ta (find_address_blocks lines) =
          (fa, if ta = "" then ((find_address_blocks lines).get? 0).getD "" else ta)) := by
  intro fa ta lines
  constructor
  · intro h2
    unfold apply_strategy_b
    rw [if_pos h2]
    have h1 : 1 < (find_address_blocks lines).length := by omega
    simp [h1]
  · intro h1
    unfold apply_strategy_b
    rw [if_neg (by omega), if_pos h1]

theorem c7_strategy_b_assignment_witness :
    apply_strategy_b "" "KEPT" (find_address_blocks ["a", "12345", "x", "y", "z", "67890"]) =
      ("a\n12345\nx", "KEPT") := by
  rw [(c7_strategy_b_assignment "" "KEPT" ["a", "12345", "x", "y", "z", "67890"]).1 (by decide)]
  decide

/-- C9: each line yields at most one item in the inline fallback strategy, and
whenever the quantity-bearing pattern produces an accepted item on a
non-skipped line, that item is the line's result (the price-only pattern is
not consulted). -/
theorem c9_inline_first_pattern_wins :
    ∀ l, ((process_inline_line l).toList.length ≤ 1) ∧
      (∀ it, inline_skip (pyStripS l) = false →
        try_pattern1 (pyStripS l) = some it → process_inline_line l = some it) := by
  intro l
  constructor
  · cases process_inline_line l <;> simp
  · intro it hs h1
    unfold process_inline_line
    simp [hs, h1]

theorem c9_inline_first_pattern_wins_witness :
    process_inline_line "Website redesign   3  $450.00" = some ⟨"Website redesign", 3, 450⟩ := by
  exact (c9_inline_first_pattern_wins "Website redesign   3  $450.00").2
    ⟨"Website redesign", 3, 450⟩ (by decide) (by with_unfolding_all decide)

theorem scan_total_spec (ps : List Re) (t : String) :
    scan_total ps t = (spec_first_positive ps t).getD 0 := by
  induction ps with
  | nil => rfl
  | cons p rest ih =>
    simp only [scan_total, spec_first_positive, List.findSome?_cons]
    cases hr : research p t.data with
    | none => simpa [spec_first_positive] using ih
    | some r =>
      obtain ⟨caps, s, e⟩ := r
      simp only [Option.some_bind]
      cases hp : parse_total_capture caps t.data with
      | none => simp only [hp, Option.none_bind]; simpa [spec_first_positive] using ih
      | some v =>
        by_cases hv : 0 < v
        · simp [hp, hv]
        · simp only [hp, Option.some_bind, if_neg hv]
          simpa [spec_first_positive] using ih

/-- C8: with an empty item list, `calculate_total` returns the first positive
amount parsed from a leftmost match of the fixed ordered total patterns
(commas as decimal separators, spaces stripped), and 0 when no pattern yields
a positive parse; in particular "Total:" followed by "€110.00" on the next
line yields 110. -/
theorem c8_total_text_scan :
    ∀ t, calculate_total [] t = (spec_first_positive total_patterns t).getD 0 ∧
      calculate_total [] "Total:\n€110.00" = 110 := by
  intro t
  refine ⟨?_, by with_unfolding_all decide⟩
  simpa [calculate_total] using scan_total_spec total_patterns t

theorem collect_numbers_ge (lines : List String) :
    ∀ fuel j acc, j ≤ (collect_numbers lines fuel j acc).2 := by
  intro fuel
  induction fuel with
  | zero => intro j acc; simp [collect_numbers]
  | succ n ih =>
    intro j acc
    simp only [collect_numbers]
    split
    · split
      · exact le_rfl
      · split
        · exact le_rfl
        · split
          · exact le_trans (Nat.le_succ j) (ih (j + 1) _)
          · exact le_trans (Nat.le_succ j) (ih (j + 1) _)
    · exact le_rfl

/-- C6: in the table strategy, at a description line whose numeric lookahead
collects at least 2 numeric tokens, token 0 is the quantity (its integer
value when integral, else 1) and token 1 the unit price, the item is appended
exactly when quantity > 0 and price ≥ 0, and the scan resumes past all
consumed lines at the lookahead's final cursor, which is beyond the
description line. -/
theorem c6_table_step :
    ∀ lines fuel i items line nums j,
      i < lines.length →
      line = pyStripS (lines.getD i "") →
      ¬ (pyStarts "total:" (pyLowerS line) = true ∨ pyLowerS line = "total") →
      line ≠ "" →
      startsLetter line = true →
      is_metadata line = false →
      (nums, j) = collect_numbers lines (lines.length + 1) (i + 1) [] →
      2 ≤ nums.length →
      table_scan lines (fuel + 1) i items =
        table_scan lines fuel j
          (if line ≠ "" ∧
              0 < (if ((nums.get? 0).getD 0).den = 1 then ((nums.get? 0).getD 0).num else 1) ∧
              0 ≤ (nums.get? 1).getD 0
           then items ++
             [⟨line, (if ((nums.get? 0).getD 0).den = 1 then ((nums.get? 0).getD 0).num else 1),
               (nums.get? 1).getD 0⟩]
           else items) ∧
      i < j := by
  intro lines fuel i items line nums j hi hline htot hne hsl hmeta hcol hlen
  constructor
  · conv_lhs => rw [table_scan]
    rw [if_pos hi, ← hline, if_neg htot, if_neg hne, if_pos ⟨hsl, hmeta⟩, ← hcol]
    simp only
    rw [if_pos hlen]
  · have := collect_numbers_ge lines (lines.length + 1) (i + 1) []
    rw [← hcol] at this
    omega

theorem c6_table_step_witness :
    table_scan ["Consulting", "2", "50.00", "100.00"] 5 0 [] =
      table_scan ["Consulting", "2", "50.00", "100.00"] 4 4 [⟨"Consulting", 2, 50⟩] ∧
      (0 : Nat) < 4 := by
  have h := c6_table_step ["Consulting", "2", "50.00", "100.00"] 4 0 [] "Consulting"
    [2, 50, 100] 4 (by decide) (by decide) (by decide) (by decide) (by decide) (by decide)
    (by with_unfolding_all decide) (by decide)
  refine ⟨?_, h.2⟩
  rw [h.1]
  with_unfolding_all decide

/-! ## Capture soundness of the matcher (for the item invariants) -/

theorem mtch_sound (text : List Char) (A : Nat → Char → Prop) :
    ∀ fuel re p caps k res,
      GroupsBelow A re → SpanOK A text caps →
      (∀ p' caps', p ≤ p' → SpanOK A text caps' →
        (∀ j c, p ≤ j → j < p' → text[j]? = some c → inClsB re c = true) →
        k p' caps' = some res → SpanOK A text res.1) →
      mtch text fuel re p caps k = some res → SpanOK A text res.1 := by
  intro fuel
  induction fuel with
  | zero => intro re p caps k res _ _ _ h; simp [mtch] at h
  | succ n ih =>
    intro re p caps k res hg hsp hk hm
    cases re with
    | eps =>
      simp only [mtch] at hm
      exact hk p caps le_rfl hsp (fun j c h1 h2 _ => absurd (h1.trans_lt h2) (lt_irrefl p)) hm
    | cls f =>
      simp only [mtch] at hm
      cases hc : text[p]? with
      | none => rw [hc] at hm; simp at hm
      | some c =>
        rw [hc] at hm
        cases hf : f c with
        | false => simp [hf] at hm
        | true =>
          simp only [hf, if_true] at hm
          refine hk (p + 1) caps (Nat.le_succ p) hsp ?_ hm
          intro j c' h1 h2 hj
          have hjp : j = p := by omega
          subst hjp
          rw [hc] at hj
          injection hj with hj'
          subst hj'
          exact hf
    | seq a b =>
      simp only [mtch] at hm
      obtain ⟨hga, hgb⟩ := hg
      refine ih a p caps _ res hga hsp ?_ hm
      intro p' caps' hpp' hsp' hcons hcall
      refine ih b p' caps' k res hgb hsp' ?_ hcall
      intro p'' caps'' hp'p'' hsp'' hcons' hcall'
      refine hk p'' caps'' (le_trans hpp' hp'p'') hsp'' ?_ hcall'
      intro j c h1 h2 hj
      by_cases hjp : j < p'
      · have := hcons j c h1 hjp hj
        simp [inClsB, this]
      · have := hcons' j c (by omega) h2 hj
        simp [inClsB, this]
    | alt a b =>
      simp only [mtch] at hm
      obtain ⟨hga, hgb⟩ := hg
      cases hma : mtch text n a p caps k with
      | some r =>
        simp only [hma] at hm
        cases hm
        refine ih a p caps k _ hga hsp ?_ hma
        intro p' caps' hpp' hsp' hcons hcall
        refine hk p' caps' hpp' hsp' ?_ hcall
        intro j c h1 h2 hj
        have := hcons j c h1 h2 hj
        simp [inClsB, this]
      | none =>
        simp only [hma] at hm
        refine ih b p caps k res hgb hsp ?_ hm
        intro p' caps' hpp' hsp' hcons hcall
        refine hk p' caps' hpp' hsp' ?_ hcall
        intro j c h1 h2 hj
        have := hcons j c h1 h2 hj
        simp [inClsB, this]
    | star a =>
      have hga : GroupsBelow A a := hg
      simp only [mtch] at hm
      cases hma : mtch text n a p caps
          (fun p' caps' => if p < p' then mtch text n (.star a) p' caps' k else none) with
      | some r =>
        simp only [hma] at hm
        cases hm
        refine ih a p caps _ _ hga hsp ?_ hma
        intro p' caps' hpp' hsp' hcons hcall
        by_cases hlt : p < p'
        · rw [if_pos hlt] at hcall
          refine ih (.star a) p' caps' k _ hg hsp' ?_ hcall
          intro p'' caps'' hp' hsp'' hcons' hcall'
          refine hk p'' caps'' (le_trans hpp' hp') hsp'' ?_ hcall'
          intro j c h1 h2 hj
          by_cases hjp : j < p'
          · exact hcons j c h1 hjp hj
          · exact hcons' j c (by omega) h2 hj
        · rw [if_neg hlt] at hcall
          cases hcall
      | none =>
        simp only [hma] at hm
        exact hk p caps le_rfl hsp (fun j c h1 h2 _ => absurd (h1.trans_lt h2) (lt_irrefl p)) hm
    | lazystar a =>
      have hga : GroupsBelow A a := hg
      simp only [mtch] at hm
      cases hmk : k p caps with
      | some r =>
        simp only [hmk] at hm
        cases hm
        exact hk p caps le_rfl hsp (fun j c h1 h2 _ => absurd (h1.trans_lt h2) (lt_irrefl p)) hmk
      | none =>
        simp only [hmk] at hm
        refine ih a p caps _ res hga hsp ?_ hm
        intro p' caps' hpp' hsp' hcons hcall
        by_cases hlt : p < p'
        · rw [if_pos hlt] at hcall
          refine ih (.lazystar a) p' caps' k res hg hsp' ?_ hcall
          intro p'' caps'' hp' hsp'' hcons' hcall'
          refine hk p'' caps'' (le_trans hpp' hp') hsp'' ?_ hcall'
          intro j c h1 h2 hj
          by_cases hjp : j < p'
          · exact hcons j c h1 hjp hj
          · exact hcons' j c (by omega) h2 hj
        · rw [if_neg hlt] at hcall
          cases hcall
    | group i a =>
      obtain ⟨hA, hga⟩ := hg
      simp only [mtch] at hm
      refine ih a p caps _ res hga hsp ?_ hm
      intro p' caps' hpp' hsp' hcons hcall
      refine hk p' ((i, p, p') :: caps') hpp' ?_ (fun j c h1 h2 hj => hcons j c h1 h2 hj) hcall
      intro g s e hmem j c h1 h2 hj
      rcases List.mem_cons.mp hmem with heq | hmem'
      · obtain ⟨hg', hs', he'⟩ : g = i ∧ s = p ∧ e = p' := by
          simpa [Prod.ext_iff] using heq
        subst hg'; subst hs'; subst he'
        exact hA c (hcons j c h1 h2 hj)
      · exact hsp' g s e hmem' j c h1 h2 hj
    | bnd =>
      simp only [mtch] at hm
      split at hm
      · exact hk p caps le_rfl hsp (fun j c h1 h2 _ => absurd (h1.trans_lt h2) (lt_irrefl p)) hm
      · cases hm
    | dollar =>
      simp only [mtch] at hm
      split at hm
      · exact hk p caps le_rfl hsp (fun j c h1 h2 _ => absurd (h1.trans_lt h2) (lt_irrefl p)) hm
      · cases hm

theorem rmatch_spanok (r : Re) (t : List Char) (A : Nat → Char → Prop)
    (hg : GroupsBelow A r) (caps : Caps) (e : Nat)
    (hm : rmatch r t = some (caps, e)) : SpanOK A t caps := by
  unfold rmatch at hm
  refine mtch_sound t A (mtchFuel t r) r 0 [] _ (caps, e) hg ?_ ?_ hm
  · intro g s e' hmem
    cases hmem
  · intro p' caps' _ hsp' _ hcall
    injection hcall with h
    obtain ⟨h1, _⟩ := Prod.mk.injEq .. ▸ h
    exact (congrArg Prod.fst h) ▸ hsp'

theorem research_spanok (r : Re) (t : List Char) (A : Nat → Char → Prop)
    (hg : GroupsBelow A r) (caps : Caps) (s e : Nat)
    (hm : research r t = some (caps, s, e)) : SpanOK A t caps := by
  unfold research at hm
  obtain ⟨a, _, hfa⟩ := List.exists_of_findSome?_eq_some hm
  cases hmm : mtch t (mtchFuel t r) r a [] (fun p caps => some (caps, p)) with
  | none => rw [hmm] at hfa; cases hfa
  | some pr =>
    obtain ⟨caps', e'⟩ := pr
    rw [hmm] at hfa
    have hc : caps' = caps := by
      injection hfa with h
      exact congrArg Prod.fst h
    subst hc
    refine mtch_sound t A (mtchFuel t r) r a [] _ (caps', e') hg ?_ ?_ hmm
    · intro g s' e'' hmem
      cases hmem
    · intro p' caps'' _ hsp' _ hcall
      injection hcall with h
      exact (congrArg Prod.fst h) ▸ hsp'

theorem capStr_chars (A : Nat → Char → Prop) (t : List Char) (caps : Caps)
    (hsp : SpanOK A t caps) (i : Nat) (g : List Char)
    (h : capStr i caps t = some g) : ∀ c ∈ g, A i c := by
  unfold capStr capGet at h
  cases hf : caps.find? (fun tu => tu.1 == i) with
  | none => rw [hf] at h; cases h
  | some tu =>
    obtain ⟨gi, s, e⟩ := tu
    rw [hf] at h
    simp only [Option.map_some'] at h
    have hmem : (gi, s, e) ∈ caps := List.mem_of_find?_eq_some hf
    have hgi : gi = i := by simpa using List.find?_some hf
    subst hgi
    injection h with h'
    intro c hc
    rw [← h'] at hc
    obtain ⟨j, hj⟩ := List.mem_iff_getElem?.mp hc
    rw [List.getElem?_take] at hj
    split at hj
    · rw [List.getElem?_drop] at hj
      exact hsp gi s e hmem (s + j) c (by omega) (by omega) hj
    · cases hj

theorem mem_of_mem_dropWhile {c : Char} {p : Char → Bool} :
    ∀ {l : List Char}, c ∈ l.dropWhile p → c ∈ l := by
  intro l
  induction l with
  | nil => simp [List.dropWhile]
  | cons a l ih =>
    simp only [List.dropWhile]
    split
    · intro h
      exact List.mem_cons_of_mem a (ih h)
    · exact fun h => h

theorem mem_pyStripL {c : Char} {l : List Char} (h : c ∈ pyStripL l) : c ∈ l := by
  unfold pyStripL at h
  have h1 := List.mem_reverse.mp h
  have h2 := mem_of_mem_dropWhile h1
  have h3 := List.mem_reverse.mp h2
  exact mem_of_mem_dropWhile h3

theorem pyFloatCore_nonneg (t : List Char) (q : ℚ) (h : pyFloatCore t = some q) : 0 ≤ q := by
  unfold pyFloatCore at h
  split at h
  · injection h with h'
    subst h'
    positivity
  · cases h

theorem pyFloat_nonneg (s : List Char) (hs : ∀ c ∈ s, c ≠ '-') (q : ℚ)
    (h : pyFloat s = some q) : 0 ≤ q := by
  unfold pyFloat at h
  cases hst : pyStripL s with
  | nil => rw [hst] at h; exact pyFloatCore_nonneg _ _ h
  | cons c rest =>
    rw [hst] at h
    dsimp only at h
    have hcm : c ∈ s := mem_pyStripL (by rw [hst]; exact List.mem_cons_self c rest)
    rw [if_neg (hs c hcm)] at h
    by_cases hp : c = '+'
    · rw [if_pos hp] at h
      exact pyFloatCore_nonneg _ _ h
    · rw [if_neg hp] at h
      exact pyFloatCore_nonneg _ _ h

theorem inlineP1_groups : GroupsBelow (fun i c => i = 3 → numSpc c = true) inlineP1 := by
  unfold inlineP1 rseq rws2 rlazyplus rplus ropt rdig rws clsCur
  simp only [GroupsBelow]
  repeat' apply And.intro
  all_goals first
    | trivial
    | (intro c h h3; exact absurd h3 (by decide))
    | (intro c h _; simpa [inClsB] using h)

theorem try_pattern1_inv (ls : String) (it : LineItem)
    (h : try_pattern1 ls = some it) : 1 ≤ it.quantity ∧ 0 ≤ it.price := by
  unfold try_pattern1 at h
  cases hm : rmatch inlineP1 ls.data with
  | none => rw [hm] at h; cases h
  | some pr =>
    obtain ⟨caps, e⟩ := pr
    rw [hm] at h
    dsimp only at h
    have hsp : SpanOK (fun i c => i = 3 → numSpc c = true) ls.data caps :=
      rmatch_spanok _ _ _ inlineP1_groups _ _ hm
    cases h1 : capStr 1 caps ls.data with
    | none => rw [h1] at h; cases h
    | some g1 =>
    cases h2 : capStr 2 caps ls.data with
    | none => rw [h1, h2] at h; cases h
    | some g2 =>
    cases h3 : capStr 3 caps ls.data with
    | none => rw [h1, h2, h3] at h; cases h
    | some g3 =>
    rw [h1, h2, h3] at h
    dsimp only at h
    split at h
    · cases hq : pyInt g2 with
      | none => rw [hq] at h; cases h
      | some qty =>
      cases hp : pyFloat (replCommaDot (remSpace g3)) with
      | none => rw [hq, hp] at h; cases h
      | some price =>
      rw [hq, hp] at h
      dsimp only at h
      split at h
      · rename_i hcond
        injection h with h'
        subst h'
        dsimp only
        refine ⟨by omega, ?_⟩
        have hg3 : ∀ c ∈ g3, numSpc c = true :=
          fun c hc => capStr_chars _ _ _ hsp 3 g3 h3 c hc rfl
        refine pyFloat_nonneg _ ?_ _ hp
        intro c hc
        simp only [replCommaDot, List.mem_map] at hc
        obtain ⟨c', hc', rfl⟩ := hc
        have hc'' : c' ∈ g3 := (List.mem_filter.mp hc').1
        have hn := hg3 c' hc''
        by_cases hcc : c' = ','
        · subst hcc; simp
        · simp only [beq_iff_eq, hcc, if_false]
          intro heq
          subst heq
          revert hn
          decide
      · cases h
    · cases h

theorem try_pattern2_inv (ls : String) (it : LineItem)
    (h : try_pattern2 ls = some it) : 1 ≤ it.quantity ∧ 0 ≤ it.price := by
  unfold try_pattern2 at h
  cases hm : rmatch inlineP2 ls.data with
  | none => rw [hm] at h; cases h
  | some pr =>
    obtain ⟨caps, e⟩ := pr
    rw [hm] at h
    dsimp only at h
    cases h1 : capStr 1 caps ls.data with
    | none => rw [h1] at h; cases h
    | some g1 =>
    cases h2 : capStr 2 caps ls.data with
    | none => rw [h1, h2] at h; cases h
    | some g2 =>
    rw [h1, h2] at h
    dsimp only at h
    split at h
    · cases hp : pyFloat (replCommaDot g2) with
      | none => rw [hp] at h; cases h
      | some price =>
      rw [hp] at h
      dsimp only at h
      split at h
      · rename_i hcond
        injection h with h'
        subst h'
        exact ⟨le_rfl, le_of_lt hcond.2.1⟩
      · cases h
    · cases h

theorem process_inline_inv (l : String) (it : LineItem)
    (h : process_inline_line l = some it) : 1 ≤ it.quantity ∧ 0 ≤ it.price := by
  simp only [process_inline_line] at h
  split at h
  · cases h
  · cases hp1 : try_pattern1 (pyStripS l) with
    | some it1 =>
      rw [hp1] at h
      injection h with h'
      subst h'
      exact try_pattern1_inv _ _ hp1
    | none =>
      rw [hp1] at h
      exact try_pattern2_inv _ _ h

theorem inline_fold_inv (lines : List String) :
    ∀ acc, (∀ it ∈ acc, 1 ≤ it.quantity ∧ 0 ≤ it.price) →
      ∀ it ∈ lines.foldl (fun acc l => acc ++ (process_inline_line l).toList) acc,
        1 ≤ it.quantity ∧ 0 ≤ it.price := by
  induction lines with
  | nil => intro acc h; simpa using h
  | cons l rest ih =>
    intro acc h
    simp only [List.foldl_cons]
    apply ih
    intro it hit
    rcases List.mem_append.mp hit with h1 | h2
    · exact h it h1
    · cases hp : process_inline_line l with
      | none => rw [hp] at h2; cases h2
      | some it' =>
        rw [hp] at h2
        simp only [Option.toList_some, List.mem_singleton] at h2
        subst h2
        exact process_inline_inv l it hp

theorem table_scan_inv (lines : List String) :
    ∀ fuel i acc, (∀ it ∈ acc, 1 ≤ it.quantity ∧ 0 ≤ it.price) →
      ∀ it ∈ table_scan lines fuel i acc, 1 ≤ it.quantity ∧ 0 ≤ it.price := by
  intro fuel
  induction fuel with
  | zero => intro i acc hacc; simpa [table_scan] using hacc
  | succ n ih =>
    intro i acc hacc it hit
    simp only [table_scan] at hit
    split at hit
    · split at hit
      · exact hacc it hit
      · split at hit
        · exact ih _ _ hacc it hit
        · split at hit
          · split at hit
            · refine ih _ _ ?_ it hit
              intro it' hit'
              split at hit' <;> split at hit'
              all_goals first
                | exact hacc it' hit'
                | (rcases List.mem_append.mp hit' with hold | hnew
                   · exact hacc it' hold
                   · rename_i hcond
                     simp only [List.mem_singleton] at hnew
                     subst hnew
                     dsimp only
                     exact ⟨by omega, hcond.2.2⟩)
            · exact ih _ _ hacc it hit
          · exact ih _ _ hacc it hit
    · exact hacc it hit

/-- C3: every line item produced by the table strategy or by the inline
fallback strategy has quantity ≥ 1 and unit price ≥ 0. -/
theorem c3_item_invariant :
    ∀ lines it, it ∈ extract_table_items lines ∨ it ∈ extract_inline_items lines →
      1 ≤ it.quantity ∧ 0 ≤ it.price := by
  intro lines it h
  rcases h with h | h
  · unfold extract_table_items at h
    cases hh : header_idx lines with
    | none => rw [hh] at h; cases h
    | some hd =>
      rw [hh] at h
      exact table_scan_inv lines _ _ [] (by simp) it h
  · unfold extract_inline_items at h
    exact inline_fold_inv lines [] (by simp) it h

theorem c3_item_invariant_witness :
    1 ≤ (⟨"Consulting", 2, 50⟩ : LineItem).quantity ∧
      0 ≤ (⟨"Consulting", 2, 50⟩ : LineItem).price :=
  c3_item_invariant ["Description", "Consulting", "2", "50.00", "100.00"] ⟨"Consulting", 2, 50⟩
    (Or.inl (by with_unfolding_all decide))

/-! ## Behaviour on whitespace-only text (for C10) -/

theorem mem_wsChars_of_isWs {c : Char} (h : isWs c = true) : c ∈ wsChars := by
  simpa [isWs, List.elem_iff] using h

theorem wordc_of_ws {c : Char} (h : isWs c = true) : wordc c = false := by
  have hm := mem_wsChars_of_isWs h
  fin_cases hm <;> decide

theorem mtch_rejws (text : List Char) (hws : ∀ c ∈ text, isWs c = true) :
    ∀ fuel re p caps k, rejwsB re = true → mtch text fuel re p caps k = none := by
  intro fuel
  induction fuel with
  | zero => intro re p caps k _; simp [mtch]
  | succ n ih =>
    intro re p caps k hr
    cases re with
    | eps => simp [rejwsB] at hr
    | cls f =>
      simp only [mtch]
      cases hc : text[p]? with
      | none => rfl
      | some c =>
        have hcm : c ∈ text := List.getElem?_mem hc
        have hw := hws c hcm
        have hf : f c = false := by
          have hall := List.all_eq_true.mp hr c (mem_wsChars_of_isWs hw)
          simpa using hall
        simp [hf]
    | seq a b =>
      simp only [mtch]
      exact ih a p caps _ (by simpa [rejwsB] using hr)
    | alt a b =>
      obtain ⟨ha, hb⟩ : rejwsB a = true ∧ rejwsB b = true := by simpa [rejwsB] using hr
      simp only [mtch]
      rw [ih a p caps k ha]
      exact ih b p caps k hb
    | star a => simp [rejwsB] at hr
    | lazystar a => simp [rejwsB] at hr
    | group i a =>
      simp only [mtch]
      exact ih a p caps _ (by simpa [rejwsB] using hr)
    | bnd =>
      simp only [mtch]
      have h1 : wordAt text p = false := by
        unfold wordAt
        cases hc : text[p]? with
        | none => rfl
        | some c => exact wordc_of_ws (hws c (List.getElem?_mem hc))
      have h2 : wordAt text (p - 1) = false := by
        unfold wordAt
        cases hc : text[p - 1]? with
        | none => rfl
        | some c => exact wordc_of_ws (hws c (List.getElem?_mem hc))
      rw [h1, h2]
      simp
    | dollar => simp [rejwsB] at hr

theorem research_rejws (r : Re) (t : List Char) (hws : ∀ c ∈ t, isWs c = true)
    (hr : rejwsB r = true) : research r t = none := by
  unfold research
  rw [List.findSome?_eq_none_iff]
  intro s _
  rw [mtch_rejws t hws _ r s [] _ hr]

theorem countSubAux_ws_zero (c0 : Char) (rest : List Char) (hc0 : isWs c0 = false) :
    ∀ fuel hay, (∀ c ∈ hay, isWs c = true) → countSubAux (c0 :: rest) fuel hay = 0 := by
  intro fuel
  induction fuel with
  | zero => intro hay _; rfl
  | succ n ih =>
    intro hay hws
    cases hay with
    | nil => rfl
    | cons c hrest =>
      have hne : (c0 == c) = false := by
        refine beq_eq_false_iff_ne.mpr (fun he => ?_)
        rw [he] at hc0
        rw [hws c (List.mem_cons_self c hrest)] at hc0
        cases hc0
      have hpre : (c0 :: rest).isPrefixOf (c :: hrest) = false := by
        simp [List.isPrefixOf, hne]
      simp only [countSubAux, hpre, Bool.false_eq_true, if_false]
      exact ih hrest (fun c' h => hws c' (List.mem_cons_of_mem _ h))

theorem countSub_ws_zero (kw : String) (hay : List Char) (hkw : headNonWs kw = true)
    (hws : ∀ c ∈ hay, isWs c = true) : countSub kw.data hay = 0 := by
  unfold countSub
  cases hd : kw.data with
  | nil => unfold headNonWs at hkw; rw [hd] at hkw; cases hkw
  | cons c0 rest =>
    have hc0 : isWs c0 = false := by
      unfold headNonWs at hkw
      rw [hd] at hkw
      simpa using hkw
    simp only [List.isEmpty_cons, if_false, Bool.false_eq_true]
    exact countSubAux_ws_zero c0 rest hc0 _ hay hws

theorem kwCount_ws_zero (t : String) (hws : ∀ c ∈ t.data, isWs c = true)
    (kws : List String) (hk : ∀ kw ∈ kws, headNonWs kw = true) : kwCount t kws = 0 := by
  unfold kwCount
  apply List.sum_eq_zero
  intro x hx
  simp only [List.mem_map] at hx
  obtain ⟨kw, hkw, rfl⟩ := hx
  exact countSub_ws_zero kw t.data (hk kw hkw) hws

theorem detect_mode_ws (t : String) (hws : ∀ c ∈ t.data, isWs c = true) :
    detect_mode t = "invoice" := by
  unfold detect_mode
  rw [kwCount_ws_zero t hws estimate_keywords (by decide),
      kwCount_ws_zero t hws invoice_keywords (by decide)]
  rfl

theorem detect_language_ws (t : String) (hws : ∀ c ∈ t.data, isWs c = true) :
    detect_language t = "fr" := by
  unfold detect_language
  rw [kwCount_ws_zero t hws english_keywords (by decide),
      kwCount_ws_zero t hws french_keywords (by decide)]
  rfl

theorem pyLower_ws {c : Char} (h : isWs c = true) : pyLower c = c := by
  have hm := mem_wsChars_of_isWs h
  fin_cases hm <;> decide

theorem pyLowerS_ws (s : String) (h : ∀ c ∈ s.data, isWs c = true) :
    ∀ c ∈ (pyLowerS s).data, isWs c = true := by
  intro c hc
  simp only [pyLowerS, List.mem_map] at hc
  obtain ⟨c', hc', rfl⟩ := hc
  rw [pyLower_ws (h c' hc')]
  exact h c' hc'

theorem splitNl_ws : ∀ l : List Char, (∀ c ∈ l, isWs c = true) →
    ∀ piece ∈ splitNl l, ∀ c ∈ piece, isWs c = true := by
  intro l
  induction l with
  | nil =>
    intro _ piece hp
    simp only [splitNl, List.mem_singleton] at hp
    subst hp
    simp
  | cons a l ih =>
    intro h piece hp
    have hl : ∀ c ∈ l, isWs c = true := fun c hc => h c (List.mem_cons_of_mem _ hc)
    simp only [splitNl] at hp
    split at hp
    · rcases List.mem_cons.mp hp with heq | hp'
      · subst heq; simp
      · exact ih hl piece hp'
    · cases hs : splitNl l with
      | nil =>
        rw [hs] at hp
        simp only [List.mem_singleton] at hp
        subst hp
        intro c hc
        simp only [List.mem_singleton] at hc
        subst hc
        exact h c (List.mem_cons_self ..)
      | cons ph pt =>
        rw [hs] at hp
        rcases List.mem_cons.mp hp with heq | hp'
        · subst heq
          intro c hc
          rcases List.mem_cons.mp hc with heq' | hc'
          · subst heq'; exact h c (List.mem_cons_self ..)
          · exact ih hl ph (hs ▸ List.mem_cons_self ..) c hc'
        · exact ih hl piece (hs ▸ List.mem_cons_of_mem _ hp')

theorem pyStripL_ws (l : List Char) (h : ∀ c ∈ l, isWs c = true) : pyStripL l = [] := by
  unfold pyStripL
  rw [List.dropWhile_eq_nil_iff.mpr (fun x hx => h x hx)]
  rfl

theorem normalized_lines_ws (ft : String) (h : ∀ c ∈ ft.data, isWs c = true) :
    normalized_lines ft = [] := by
  unfold normalized_lines
  rw [List.filter_eq_nil_iff]
  intro l hl
  simp only [List.map_map, List.mem_map] at hl
  obtain ⟨piece, hpiece, rfl⟩ := hl
  simp [Function.comp, pyStripS, pyStripL_ws piece (splitNl_ws ft.data h piece hpiece)]

theorem try_markers_ws (ps : List Re) (tl ft : String) (hws : ∀ c ∈ tl.data, isWs c = true)
    (hp : ∀ p ∈ ps, rejwsB p = true) : try_markers ps tl ft = "" := by
  induction ps with
  | nil => rfl
  | cons p rest ih =>
    simp only [try_markers]
    rw [research_rejws p tl.data hws (hp p (List.mem_cons_self ..))]
    exact ih (fun q hq => hp q (List.mem_cons_of_mem _ hq))

theorem scan_total_ws (ps : List Re) (t : String) (hws : ∀ c ∈ t.data, isWs c = true)
    (hp : ∀ p ∈ ps, rejwsB p = true) : scan_total ps t = 0 := by
  induction ps with
  | nil => rfl
  | cons p rest ih =>
    simp only [scan_total]
    rw [research_rejws p t.data hws (hp p (List.mem_cons_self ..))]
    exact ih (fun q hq => hp q (List.mem_cons_of_mem _ hq))

theorem title_scan_ws (ps : List Re) (t : String) (hws : ∀ c ∈ t.data, isWs c = true)
    (hp : ∀ p ∈ ps, rejwsB p = true) : title_scan ps t = "" := by
  induction ps with
  | nil => rfl
  | cons p rest ih =>
    simp only [title_scan]
    rw [research_rejws p t.data hws (hp p (List.mem_cons_self ..))]
    exact ih (fun q hq => hp q (List.mem_cons_of_mem _ hq))

theorem extract_addresses_ws (ft : String) (hws : ∀ c ∈ ft.data, isWs c = true) :
    extract_addresses [] ft = ("", "") := by
  simp only [extract_addresses]
  have hlow := pyLowerS_ws ft hws
  rw [try_markers_ws [fromMarker1, fromMarker2] _ ft hlow (by decide),
      try_markers_ws [toMarker1, toMarker2] _ ft hlow (by decide)]
  decide

/-- C10: when the decode succeeds but the joined page text is empty or
whitespace-only, the result is kind invoice, locale the primary locale "fr"
(by the ≥ tie-break on zero keyword counts), both addresses empty, items
empty, total 0, title empty, and rawText the joined page text — not the
decode-failure default. -/
theorem c10_blank_text_defaults :
    ∀ pages, allWsS (joinPages pages) = true →
      extract_invoice_data (.ok pages) =
        { mode := "invoice", language := "fr", from_address := "", to_address := "",
          items := [], total := 0, doc_title := "", raw_text := joinPages pages } := by
  intro pages hws0
  have hws : ∀ c ∈ (joinPages pages).data, isWs c = true := by
    simpa [allWsS, List.all_eq_true] using hws0
  have hlow := pyLowerS_ws (joinPages pages) hws
  have hlines : normalized_lines (joinPages pages) = [] := normalized_lines_ws _ hws
  simp only [extract_invoice_data, extract_title, hlines]
  rw [detect_mode_ws _ hlow, detect_language_ws _ hlow, extract_addresses_ws _ hws,
      title_scan_ws title_patterns _ hlow (by decide)]
  have htot : calculate_total (extract_items []) (joinPages pages) = 0 := by
    show calculate_total [] (joinPages pages) = 0
    simp only [calculate_total, ne_eq, not_true_eq_false, if_false]
    exact scan_total_ws total_patterns _ hws (by decide)
  rw [htot]
  rfl

theorem c10_blank_text_defaults_witness :
    extract_invoice_data (.ok []) =
      { mode := "invoice", language := "fr", from_address := "", to_address := "",
        items := [], total := 0, doc_title := "", raw_text := "" } :=
  c10_blank_text_defaults [] (by decide)

end PdfParser
